import Mathlib

/-!
Verification of the `downloader` crate's `Download` descriptor
(`src/download.rs`) and of the download execution engine described by the
specification. Paths (`std::path::PathBuf`) are modelled as `String`
(`PathBuf::new()` and `PathBuf::from("")` are both the empty path, modelled
as `""`). The URL parser (`reqwest::Url`, an external dependency) is treated
as an abstract capability: a function `parse : String → Option Url` where a
parsed `Url` exposes its optional path segments, exactly the interface
`file_name_from_url` consumes.
-/

namespace Downloader

/-- The result of URL parsing as consumed by `file_name_from_url`:
`reqwest::Url::path_segments()` returns `Option` of an iterator of path
segments, modelled as `Option (List String)`. -/
structure Url where
  path_segments : Option (List String)

/-- Modelled from the spec: the verification capability is "a function-like
contract `(staged_file_handle) -> pass/fail`" (`crate::Verify`; its defining
module is not under `src/`). -/
def Verify : Type := String → Bool

/-- Modelled from the spec: `crate::verify::noop()` (module not under
`src/`), the default verification, which is "always-pass". -/
def noop : Verify := fun _ => true

/-- The `Download` descriptor of `src/download.rs`, field for field.
`crate::Progress` is an opaque capability, so the structure is parameterised
over its type. -/
structure Download (Progress : Type) where
  urls : List String
  progress : Option Progress
  file_name : String
  check_file_name : Bool
  output_path : Option String
  verify_callback : Verify

/-- `file_name_from_url` from `src/download.rs`: empty input gives the empty
path; a parse failure gives the empty path; otherwise
`url.path_segments().map_or_else(PathBuf::new, |f| PathBuf::from(f.last().unwrap_or("")))`. -/
def file_name_from_url (parse : String → Option Url) (url : String) : String :=
  if url.isEmpty then ""
  else
    match parse url with
    | none => ""
    | some u =>
      match u.path_segments with
      | none => ""
      | some f => (f.getLast?).getD ""

/-- `Download::new` from `src/download.rs`. -/
def Download.new (Progress : Type) (parse : String → Option Url)
    (url : String) : Download Progress :=
  { urls := [url]
  , progress := none
  , file_name := file_name_from_url parse url
  , check_file_name := true
  , output_path := none
  , verify_callback := noop }

/-- `Download::new_with_output` from `src/download.rs`. -/
def Download.new_with_output (Progress : Type) (parse : String → Option Url)
    (url : String) (output_path : String) : Download Progress :=
  { urls := [url]
  , progress := none
  , file_name := file_name_from_url parse url
  , check_file_name := true
  , output_path := some output_path
  , verify_callback := noop }

/-- `Download::new_mirrored` from `src/download.rs`:
`urls.get(0).unwrap_or(&String::new())` picks the first mirror (or `""`) to
derive the default file name. -/
def Download.new_mirrored (Progress : Type) (parse : String → Option Url)
    (urls : List String) : Download Progress :=
  { urls := urls
  , progress := none
  , file_name := file_name_from_url parse ((urls.get? 0).getD "")
  , check_file_name := true
  , output_path := none
  , verify_callback := noop }

/-- Builder `Download::file_name` from `src/download.rs` (named `set_file_name`
here because the field projection already uses the Rust name). -/
def Download.set_file_name {Progress : Type} (d : Download Progress)
    (path : String) : Download Progress :=
  { d with file_name := path }

/-- Builder `Download::progress` from `src/download.rs` (named `set_progress`
here because the field projection already uses the Rust name). -/
def Download.set_progress {Progress : Type} (d : Download Progress)
    (progress : Progress) : Download Progress :=
  { d with progress := some progress }

/-- Builder `Download::verify` from `src/download.rs`. -/
def Download.verify {Progress : Type} (d : Download Progress)
    (func : Verify) : Download Progress :=
  { d with verify_callback := func }

/-- A concrete parse capability on which every string fails to parse, for
evaluating the constructors on malformed input. -/
def parseFail : String → Option Url := fun _ => none

/-- A concrete parse capability recognising the single URL
`"http://x/a/b"` with path segments `["a", "b"]`. -/
def parseAB : String → Option Url := fun s =>
  if s = "http://x/a/b" then some ⟨some ["a", "b"]⟩ else none

end Downloader

open Downloader

/-- C1 counterexample: the descriptor invariant does not hold for every
input. `Download::new_mirrored` on the empty slice yields an empty `urls`
list, and `Download::new` on the empty string yields an empty `file_name`. -/
theorem descriptor_invariant_cex :
    (Download.new_mirrored Unit parseFail []).urls = [] ∧
    (Download.new Unit parseFail "").file_name = "" := by
  constructor <;> rfl

/-- C1 (amended): `Download::new` and `Download::new_with_output` always
produce the singleton `urls` list `[url]` (hence non-empty), and
`Download::new_mirrored` returns exactly the given list of mirrors (hence
non-empty iff the slice is non-empty); the `file_name` is non-empty
provided the url is non-empty, parses, and its last path segment is
non-empty — for the empty string or a malformed URL it is the empty path. -/
theorem descriptor_invariant_amended (Progress : Type)
    (parse : String → Option Url) (url out : String) (mirrors : List String)
    (u : Url) (f : List String) (s : String) :
    (Download.new Progress parse url).urls = [url] ∧
    (Download.new_with_output Progress parse url out).urls = [url] ∧
    (Download.new_mirrored Progress parse mirrors).urls = mirrors ∧
    (url ≠ "" → parse url = some u → u.path_segments = some f →
      f.getLast? = some s → s ≠ "" →
      (Download.new Progress parse url).file_name ≠ "") := by
  refine ⟨rfl, rfl, rfl, fun hne hu hf hs hs0 => ?_⟩
  have hempty : url.isEmpty = false := by
    cases hcase : url.isEmpty
    · rfl
    · exact absurd (((String.isEmpty_iff _).mp hcase)) hne
  simp only [Download.new, file_name_from_url, hempty, Bool.false_eq_true,
    if_false, hu, hf, hs, Option.getD_some]
  exact hs0

/-- C1 witness: the amended invariant evaluated at a URL that parses with
last path segment `"b"`. -/
theorem descriptor_invariant_amended_witness :
    (Download.new Unit parseAB "http://x/a/b").file_name ≠ "" :=
  (descriptor_invariant_amended Unit parseAB "http://x/a/b" "out" []
      ⟨some ["a", "b"]⟩ ["a", "b"] "b").2.2.2
    (by decide) rfl rfl rfl (by decide)

/-- C2: whenever `url` parses (the empty string never parses for a real URL
parser, taken as a hypothesis on the capability) and the parsed URL has path
segments with last segment `s`, the default `file_name` of `Download::new`
and `Download::new_with_output` is `s`; for an empty or unparsable url the
default `file_name` is the empty path. -/
theorem default_file_name_from_last_segment (Progress : Type)
    (parse : String → Option Url) (url out : String)
    (u : Url) (f : List String) (s : String)
    (hempty : parse "" = none)
    (hu : parse url = some u) (hf : u.path_segments = some f)
    (hs : f.getLast? = some s) :
    (Download.new Progress parse url).file_name = s ∧
    (Download.new_with_output Progress parse url out).file_name = s ∧
    (∀ url2 : String, url2 = "" ∨ parse url2 = none →
      (Download.new Progress parse url2).file_name = "") := by
  have hne : url ≠ "" := by
    intro h
    rw [h, hempty] at hu
    exact Option.noConfusion hu
  have hb : url.isEmpty = false := by
    cases hcase : url.isEmpty
    · rfl
    · exact absurd (((String.isEmpty_iff _).mp hcase)) hne
  refine ⟨?_, ?_, ?_⟩
  · simp only [Download.new, file_name_from_url, hb, Bool.false_eq_true,
      if_false, hu, hf, hs, Option.getD_some]
  · simp only [Download.new_with_output, file_name_from_url, hb,
      Bool.false_eq_true, if_false, hu, hf, hs, Option.getD_some]
  · intro url2 h2
    rcases h2 with h2 | h2
    · subst h2; rfl
    · simp only [Download.new, file_name_from_url, h2]
      cases hcase : url2.isEmpty <;> simp

/-- C2 witness: the default file name of `"http://x/a/b"` is `"b"`, and the
unparsable `"x"` gives the empty path. -/
theorem default_file_name_from_last_segment_witness :
    (Download.new Unit parseAB "http://x/a/b").file_name = "b" ∧
    (Download.new Unit parseAB "x").file_name = "" := by
  have h := default_file_name_from_last_segment Unit parseAB "http://x/a/b"
    "out" ⟨some ["a", "b"]⟩ ["a", "b"] "b" rfl rfl rfl rfl
  exact ⟨h.1, h.2.2 "x" (Or.inr rfl)⟩

/-- C3: every public constructor installs the always-pass verifier `noop` as
`verify_callback`; the other builders preserve it, so a descriptor on which
`Download::verify` was never called has an always-pass verification. -/
theorem default_verify_callback_noop (Progress : Type)
    (parse : String → Option Url) (url out path : String)
    (mirrors : List String) (d : Download Progress) (p : Progress)
    (x : String) :
    (Download.new Progress parse url).verify_callback = noop ∧
    (Download.new_with_output Progress parse url out).verify_callback = noop ∧
    (Download.new_mirrored Progress parse mirrors).verify_callback = noop ∧
    (d.set_file_name path).verify_callback = d.verify_callback ∧
    (d.set_progress p).verify_callback = d.verify_callback ∧
    noop x = true :=
  ⟨rfl, rfl, rfl, rfl, rfl, rfl⟩

/-- C4: every public constructor leaves the progress sink at `none`; the
builders other than `Download::progress` preserve it, and only
`Download::progress` installs a sink. -/
theorem default_progress_none (Progress : Type)
    (parse : String → Option Url) (url out path : String)
    (mirrors : List String) (d : Download Progress) (p : Progress)
    (func : Verify) :
    (Download.new Progress parse url).progress = none ∧
    (Download.new_with_output Progress parse url out).progress = none ∧
    (Download.new_mirrored Progress parse mirrors).progress = none ∧
    (d.set_file_name path).progress = d.progress ∧
    (d.verify func).progress = d.progress ∧
    (d.set_progress p).progress = some p :=
  ⟨rfl, rfl, rfl, rfl, rfl, rfl⟩

/-- C8: `file_name_from_url` is total (a total Lean function by
construction) and returns the empty path on the empty string, on any string
that fails to parse, and on any parsed URL without path segments. -/
theorem file_name_from_url_total_empty_cases
    (parse : String → Option Url) (url : String) (u : Url) :
    file_name_from_url parse "" = "" ∧
    (parse url = none → file_name_from_url parse url = "") ∧
    (parse url = some u → u.path_segments = none →
      file_name_from_url parse url = "") := by
  refine ⟨rfl, fun h => ?_, fun hu hseg => ?_⟩
  · simp only [file_name_from_url, h]
    cases url.isEmpty <;> simp
  · simp only [file_name_from_url, hu, hseg]
    cases url.isEmpty <;> simp

/-- C8 witness: the empty cases evaluated on a parser that rejects `"x"`
and on a parsed URL without path segments. -/
theorem file_name_from_url_total_empty_cases_witness :
    file_name_from_url parseFail "x" = "" ∧
    file_name_from_url (fun _ => some ⟨none⟩) "x" = "" :=
  ⟨(file_name_from_url_total_empty_cases parseFail "x" ⟨none⟩).2.1 rfl,
   (file_name_from_url_total_empty_cases (fun _ => some ⟨none⟩) "x"
      ⟨none⟩).2.2 rfl rfl⟩

/-- C9: each builder mutates exactly one field: `Download::file_name` only
`file_name`, `Download::progress` only `progress`, `Download::verify` only
`verify_callback`; `urls`, `check_file_name` and `output_path` are unchanged
by all three. -/
theorem builder_frame_conditions (Progress : Type) (d : Download Progress)
    (path : String) (p : Progress) (func : Verify) :
    ((d.set_file_name path).urls = d.urls ∧
     (d.set_file_name path).progress = d.progress ∧
     (d.set_file_name path).check_file_name = d.check_file_name ∧
     (d.set_file_name path).output_path = d.output_path ∧
     (d.set_file_name path).verify_callback = d.verify_callback ∧
     (d.set_file_name path).file_name = path) ∧
    ((d.set_progress p).urls = d.urls ∧
     (d.set_progress p).file_name = d.file_name ∧
     (d.set_progress p).check_file_name = d.check_file_name ∧
     (d.set_progress p).output_path = d.output_path ∧
     (d.set_progress p).verify_callback = d.verify_callback ∧
     (d.set_progress p).progress = some p) ∧
    ((d.verify func).urls = d.urls ∧
     (d.verify func).file_name = d.file_name ∧
     (d.verify func).progress = d.progress ∧
     (d.verify func).check_file_name = d.check_file_name ∧
     (d.verify func).output_path = d.output_path ∧
     (d.verify func).verify_callback = func) :=
  ⟨⟨rfl, rfl, rfl, rfl, rfl, rfl⟩, ⟨rfl, rfl, rfl, rfl, rfl, rfl⟩,
   ⟨rfl, rfl, rfl, rfl, rfl, rfl⟩⟩

/-- C10: every public constructor sets `check_file_name` to `true`
(fail-if-exists collision policy), and `Download::new` and
`Download::new_mirrored` set `output_path` to `none`. -/
theorem constructor_defaults (Progress : Type)
    (parse : String → Option Url) (url out : String)
    (mirrors : List String) :
    (Download.new Progress parse url).check_file_name = true ∧
    (Download.new_with_output Progress parse url out).check_file_name = true ∧
    (Download.new_mirrored Progress parse mirrors).check_file_name = true ∧
    (Download.new Progress parse url).output_path = none ∧
    (Download.new_mirrored Progress parse mirrors).output_path = none :=
  ⟨rfl, rfl, rfl, rfl, rfl⟩

namespace Engine

/-- Modelled from the spec: a `Location` is an opaque source identifier. -/
abbrev Location : Type := String

/-- Modelled from the spec: the error taxonomy of §7. -/
inductive FailReason
  | SourceUnavailable
  | VerificationFailed
  | SourcesExhausted
  | LocalIOError
  | TargetCollision
  | Cancelled
deriving DecidableEq

/-- Modelled from the spec: the terminal `JobResult` record —
`Succeeded{final_path}` or `Failed{reason, attempts_made}`. -/
inductive JobResult
  | Succeeded (final_path : String)
  | Failed (reason : FailReason) (attempts_made : Nat)
deriving DecidableEq

/-- Modelled from the spec: the tagged result of one transfer attempt
(§4.2); the staged-path and byte-count payloads play no role in the claims
settled here. -/
inductive TransferOutcome
  | Success
  | RetryableFailure
  | FatalFailure
deriving DecidableEq

/-- Modelled from the spec: the sources not yet tried for this job
(`sources \ tried`, the Mirror Selector's candidate pool). -/
def remainingSources (sources tried : List Location) : List Location :=
  sources.filter (fun s => decide (s ∉ tried))

/-- Modelled from the spec: the Job State Machine loop of §4.4, sequencing
Mirror Selector → Transfer Worker → Verification Gate → commit-or-retry.
`pick` is the injected Mirror Selector, `outcome` classifies one transfer
attempt per location, `verifyOk` is the Verification Gate's verdict on data
staged from a location. `fuel` is the bound on total attempts (default: the
number of sources). Returns the `JobResult` together with the list of
locations attempted (the `tried` set, most recent first). -/
def runJobGo (pick : List Location → Option Location)
    (outcome : Location → TransferOutcome) (verifyOk : Location → Bool)
    (target : String) (sources : List Location) :
    Nat → List Location → Nat → JobResult × List Location
  | 0, tried, attempts =>
    (JobResult.Failed FailReason.SourcesExhausted attempts, tried)
  | fuel + 1, tried, attempts =>
    match pick (remainingSources sources tried) with
    | none => (JobResult.Failed FailReason.SourcesExhausted attempts, tried)
    | some loc =>
      match outcome loc with
      | TransferOutcome.FatalFailure =>
        (JobResult.Failed FailReason.LocalIOError (attempts + 1), loc :: tried)
      | TransferOutcome.RetryableFailure =>
        runJobGo pick outcome verifyOk target sources fuel (loc :: tried)
          (attempts + 1)
      | TransferOutcome.Success =>
        if verifyOk loc then
          (JobResult.Succeeded target, loc :: tried)
        else
          runJobGo pick outcome verifyOk target sources fuel (loc :: tried)
            (attempts + 1)

/-- Modelled from the spec: run one job from a fresh `JobState` (empty
`tried` set, zero attempts, attempt bound equal to the number of sources). -/
def runJob (pick : List Location → Option Location)
    (outcome : Location → TransferOutcome) (verifyOk : Location → Bool)
    (target : String) (sources : List Location) : JobResult × List Location :=
  runJobGo pick outcome verifyOk target sources sources.length [] 0

theorem mem_remainingSources {sources tried : List Location} {x : Location}
    (h : x ∈ remainingSources sources tried) : x ∈ sources ∧ x ∉ tried := by
  have := List.mem_filter.mp h
  exact ⟨this.1, of_decide_eq_true this.2⟩

theorem remainingSources_eq_nil {sources tried : List Location}
    (h : remainingSources sources tried = []) : ∀ s ∈ sources, s ∈ tried := by
  intro s hs
  by_contra hns
  have : s ∈ remainingSources sources tried :=
    List.mem_filter.mpr ⟨hs, decide_eq_true hns⟩
  rw [h] at this
  exact List.not_mem_nil s this

theorem runJobGo_exhausts
    (pick : List Location → Option Location)
    (outcome : Location → TransferOutcome) (verifyOk : Location → Bool)
    (target : String) (sources : List Location)
    (hpick_mem : ∀ l x, pick l = some x → x ∈ l)
    (hpick_some : ∀ l, l ≠ [] → (pick l).isSome = true)
    (hnodup : sources.Nodup)
    (hunreach : ∀ s ∈ sources, outcome s = TransferOutcome.RetryableFailure) :
    ∀ (fuel : Nat) (tried : List Location) (attempts : Nat),
      tried.Nodup → (∀ t ∈ tried, t ∈ sources) →
      attempts = tried.length → fuel = sources.length - tried.length →
      (runJobGo pick outcome verifyOk target sources fuel tried attempts).1
          = JobResult.Failed FailReason.SourcesExhausted sources.length ∧
      (runJobGo pick outcome verifyOk target sources fuel tried
          attempts).2.Nodup := by
  intro fuel
  induction fuel with
  | zero =>
    intro tried attempts htn hts ha hf
    have hle : tried.length ≤ sources.length := (htn.subperm hts).length_le
    have heq : tried.length = sources.length := by omega
    simp [runJobGo, ha, heq, htn]
  | succ fuel ih =>
    intro tried attempts htn hts ha hf
    have hlt : tried.length < sources.length := by omega
    cases hp : pick (remainingSources sources tried) with
    | none =>
      have hrem : remainingSources sources tried = [] := by
        by_contra hne
        have := hpick_some _ hne
        rw [hp] at this
        exact Bool.noConfusion this
      have hsub : ∀ s ∈ sources, s ∈ tried := remainingSources_eq_nil hrem
      have hle : sources.length ≤ tried.length := (hnodup.subperm hsub).length_le
      have heq : tried.length = sources.length := by omega
      omega
    | some loc =>
      have hmem := mem_remainingSources (hpick_mem _ _ hp)
      have hout : outcome loc = TransferOutcome.RetryableFailure :=
        hunreach loc hmem.1
      have hstep := ih (loc :: tried) (attempts + 1)
        (List.nodup_cons.mpr ⟨hmem.2, htn⟩)
        (fun t ht => by
          rcases List.mem_cons.mp ht with h | h
          · exact h ▸ hmem.1
          · exact hts t h)
        (by simp [ha]) (by simp; omega)
      simp only [runJobGo, hp, hout]
      exact hstep

/-- C5: for a job in which every source is unreachable (every attempt is a
`RetryableFailure`), any Mirror Selector that picks only from the untried
pool drives the Job State Machine to `Failed{SourcesExhausted}` with
`attempts_made` equal to the number of sources, and the list of attempted
locations has no repeats — no Location already in the `tried` set is ever
re-selected. -/
theorem job_all_sources_unreachable
    (pick : List Location → Option Location)
    (outcome : Location → TransferOutcome) (verifyOk : Location → Bool)
    (target : String) (sources : List Location)
    (hpick_mem : ∀ l x, pick l = some x → x ∈ l)
    (hpick_some : ∀ l, l ≠ [] → (pick l).isSome = true)
    (hnodup : sources.Nodup)
    (hunreach : ∀ s ∈ sources, outcome s = TransferOutcome.RetryableFailure) :
    (runJob pick outcome verifyOk target sources).1
        = JobResult.Failed FailReason.SourcesExhausted sources.length ∧
    (runJob pick outcome verifyOk target sources).2.Nodup :=
  runJobGo_exhausts pick outcome verifyOk target sources hpick_mem hpick_some
    hnodup hunreach sources.length [] 0 List.nodup_nil
    (fun t ht => absurd ht (List.not_mem_nil t)) rfl rfl

/-- C5 witness: two unreachable mirrors, selector takes the head of the
untried pool; the job fails with `SourcesExhausted` after 2 attempts. -/
theorem job_all_sources_unreachable_witness :
    (runJob (fun l => l.head?) (fun _ => TransferOutcome.RetryableFailure)
        (fun _ => true) "t" ["m1", "m2"]).1
      = JobResult.Failed FailReason.SourcesExhausted 2 ∧
    (runJob (fun l => l.head?) (fun _ => TransferOutcome.RetryableFailure)
        (fun _ => true) "t" ["m1", "m2"]).2.Nodup := by
  have h := job_all_sources_unreachable (fun l => l.head?)
    (fun _ => TransferOutcome.RetryableFailure) (fun _ => true) "t"
    ["m1", "m2"]
    (fun l x hx => by
      cases l with
      | nil => exact Option.noConfusion hx
      | cons a t => exact (Option.some_inj.mp hx) ▸ List.mem_cons_self a t)
    (fun l hl => by
      cases l with
      | nil => exact absurd rfl hl
      | cons a t => rfl)
    (by decide)
    (fun s _ => rfl)
  exact h

end Engine

namespace Engine

/-- Modelled from the spec: what the Orchestrator records as each job
completes — the job's submission index paired with its result, listed in
completion order (`order`, the sequence of submission indices in the order
the jobs happen to finish). -/
def dispatchCompletions {Descr : Type} (jobRun : Descr → JobResult)
    (ds : List Descr) (order : List Nat) : List (Nat × Option JobResult) :=
  order.map (fun i => (i, ds[i]?.map jobRun))

/-- Modelled from the spec: result collection — a slot table indexed by
submission position, filled as completions arrive, so the `BatchResult`
order is established at collection time, not at completion time. -/
def placeResults (n : Nat) (completions : List (Nat × Option JobResult)) :
    List (Option JobResult) :=
  completions.foldl (fun slots c => slots.set c.1 c.2)
    (List.replicate n (none : Option JobResult))

/-- Modelled from the spec: `run(descriptors, max_concurrency) ->
BatchResult`, with the concurrent, unordered execution abstracted into the
completion order `order` (any permutation of the submission indices). -/
def runBatch {Descr : Type} (jobRun : Descr → JobResult) (ds : List Descr)
    (order : List Nat) : List (Option JobResult) :=
  placeResults ds.length (dispatchCompletions jobRun ds order)

theorem foldl_set_not_mem {α : Type} (v : Nat → α) :
    ∀ (idxs : List Nat) (slots : List α) (j : Nat), j ∉ idxs →
      (idxs.foldl (fun s i => s.set i (v i)) slots)[j]? = slots[j]? := by
  intro idxs
  induction idxs with
  | nil => intro slots j _; rfl
  | cons i rest ih =>
    intro slots j hj
    have hji : i ≠ j := fun h => hj (h ▸ List.mem_cons_self i rest)
    have hjr : j ∉ rest := fun h => hj (List.mem_cons_of_mem i h)
    simp only [List.foldl_cons, ih (slots.set i (v i)) j hjr,
      List.getElem?_set, if_neg hji]

theorem foldl_set_mem {α : Type} (v : Nat → α) :
    ∀ (idxs : List Nat) (slots : List α) (j : Nat), j ∈ idxs →
      j < slots.length →
      (idxs.foldl (fun s i => s.set i (v i)) slots)[j]? = some (v j) := by
  intro idxs
  induction idxs with
  | nil => intro slots j hj _; exact absurd hj (List.not_mem_nil j)
  | cons i rest ih =>
    intro slots j hj hlt
    by_cases hjr : j ∈ rest
    · simp only [List.foldl_cons]
      exact ih (slots.set i (v i)) j hjr (by simpa using hlt)
    · have hji : j = i := by
        rcases List.mem_cons.mp hj with h | h
        · exact h
        · exact absurd h hjr
      subst hji
      simp only [List.foldl_cons,
        foldl_set_not_mem v rest (slots.set j (v j)) j hjr,
        List.getElem?_set]
      simp [hlt]

/-- C6: for a batch of descriptors, the `BatchResult` produced by the
Orchestrator has exactly one entry per descriptor, in submission order —
for every completion order (any permutation of the submission indices) the
result equals the submission-ordered list of the jobs' results. -/
theorem batch_order_preserved {Descr : Type} (jobRun : Descr → JobResult)
    (ds : List Descr) (order : List Nat)
    (hperm : order.Perm (List.range ds.length)) :
    runBatch jobRun ds order = ds.map (fun d => some (jobRun d)) := by
  apply List.ext_getElem?
  intro j
  rw [runBatch, placeResults, dispatchCompletions, List.foldl_map]
  by_cases hj : j < ds.length
  · have hmem : j ∈ order := hperm.mem_iff.mpr (List.mem_range.mpr hj)
    rw [foldl_set_mem (fun i => ds[i]?.map jobRun) order _ j hmem
      (by simpa using hj)]
    have hget : ds[j]? = some ds[j] := List.getElem?_eq_getElem hj
    simp [hget, List.getElem?_map]
  · have hmem : j ∉ order := fun h =>
      hj (List.mem_range.mp (hperm.mem_iff.mp h))
    rw [foldl_set_not_mem (fun i => ds[i]?.map jobRun) order _ j hmem]
    have h1 : (List.replicate ds.length (none : Option JobResult))[j]?
        = none := List.getElem?_eq_none (by simpa using Nat.le_of_not_lt hj)
    have h2 : (ds.map (fun d => some (jobRun d)))[j]? = none :=
      List.getElem?_eq_none (by simpa using Nat.le_of_not_lt hj)
    rw [h1, h2]

/-- C6 witness: three jobs completing in the order 2, 0, 1 still produce
their results in submission order 0, 1, 2. -/
theorem batch_order_preserved_witness :
    runBatch (fun d => JobResult.Succeeded d) ["a", "b", "c"] [2, 0, 1]
      = [some (JobResult.Succeeded "a"), some (JobResult.Succeeded "b"),
         some (JobResult.Succeeded "c")] :=
  batch_order_preserved (fun d => JobResult.Succeeded d) ["a", "b", "c"]
    [2, 0, 1] (by decide)

end Engine

namespace Engine

/-- Modelled from the spec: the filesystem footprint of one job — whether a
staging file exists and whether a file exists at the job's final target
path. -/
structure FsState where
  staging : Bool
  finalFile : Bool
deriving DecidableEq

/-- Modelled from the spec: the Job State Machine of §4.4 threaded through
the per-job filesystem state, with the trace of every filesystem state the
job passes through. Each attempt writes bytes to a fresh staging file
(never the final target); the worker deletes its staging file on any
non-success outcome; a verification failure discards the staged file and
retries; a verification pass commits by atomic rename, checking the
collision policy at commit time. -/
def runJobFsGo (pick : List Location → Option Location)
    (outcome : Location → TransferOutcome) (verifyOk : Location → Bool)
    (target : String) (sources : List Location) :
    Nat → List Location → Nat → FsState → JobResult × FsState × List FsState
  | 0, _tried, attempts, fs =>
    (JobResult.Failed FailReason.SourcesExhausted attempts, fs, [])
  | fuel + 1, tried, attempts, fs =>
    match pick (remainingSources sources tried) with
    | none => (JobResult.Failed FailReason.SourcesExhausted attempts, fs, [])
    | some loc =>
      match outcome loc with
      | TransferOutcome.FatalFailure =>
        (JobResult.Failed FailReason.LocalIOError (attempts + 1),
         FsState.mk false fs.finalFile,
         [FsState.mk true fs.finalFile, FsState.mk false fs.finalFile])
      | TransferOutcome.RetryableFailure =>
        let r := runJobFsGo pick outcome verifyOk target sources fuel
          (loc :: tried) (attempts + 1) (FsState.mk false fs.finalFile)
        (r.1, r.2.1,
         FsState.mk true fs.finalFile :: FsState.mk false fs.finalFile
           :: r.2.2)
      | TransferOutcome.Success =>
        if verifyOk loc then
          if fs.finalFile then
            (JobResult.Failed FailReason.TargetCollision (attempts + 1),
             FsState.mk false fs.finalFile,
             [FsState.mk true fs.finalFile, FsState.mk false fs.finalFile])
          else
            (JobResult.Succeeded target, FsState.mk false true,
             [FsState.mk true fs.finalFile, FsState.mk false true])
        else
          let r := runJobFsGo pick outcome verifyOk target sources fuel
            (loc :: tried) (attempts + 1) (FsState.mk false fs.finalFile)
          (r.1, r.2.1,
           FsState.mk true fs.finalFile :: FsState.mk false fs.finalFile
             :: r.2.2)

/-- Modelled from the spec: run one job from a fresh `JobState` and a clean
filesystem (no staging file, no file at the final target path). -/
def runJobFs (pick : List Location → Option Location)
    (outcome : Location → TransferOutcome) (verifyOk : Location → Bool)
    (target : String) (sources : List Location) :
    JobResult × FsState × List FsState :=
  runJobFsGo pick outcome verifyOk target sources sources.length [] 0
    (FsState.mk false false)

/-- Whether a `JobResult` is `Failed`. -/
def JobResult.isFailed : JobResult → Bool
  | JobResult.Failed _ _ => true
  | JobResult.Succeeded _ => false

theorem runJobFsGo_clean (pick : List Location → Option Location)
    (outcome : Location → TransferOutcome) (verifyOk : Location → Bool)
    (target : String) (sources : List Location) :
    ∀ (fuel : Nat) (tried : List Location) (attempts : Nat),
      ((runJobFsGo pick outcome verifyOk target sources fuel tried attempts
          (FsState.mk false false)).1.isFailed = true →
        (runJobFsGo pick outcome verifyOk target sources fuel tried attempts
          (FsState.mk false false)).2.1 = FsState.mk false false ∧
        ∀ s ∈ (runJobFsGo pick outcome verifyOk target sources fuel tried
          attempts (FsState.mk false false)).2.2, s.finalFile = false) ∧
      ((runJobFsGo pick outcome verifyOk target sources fuel tried attempts
          (FsState.mk false false)).1.isFailed = false →
        (runJobFsGo pick outcome verifyOk target sources fuel tried attempts
          (FsState.mk false false)).2.1 = FsState.mk false true ∧
        ∀ s ∈ (runJobFsGo pick outcome verifyOk target sources fuel tried
          attempts (FsState.mk false false)).2.2,
          s.finalFile = true → s.staging = false) := by
  intro fuel
  induction fuel with
  | zero =>
    intro tried attempts
    refine ⟨fun _ => ⟨rfl, ?_⟩, fun h => Bool.noConfusion h⟩
    intro s hs
    exact absurd hs (List.not_mem_nil s)
  | succ fuel ih =>
    intro tried attempts
    cases hp : pick (remainingSources sources tried) with
    | none =>
      refine ⟨fun _ => ⟨?_, ?_⟩, fun h => ?_⟩
      · simp [runJobFsGo, hp]
      · simp [runJobFsGo, hp]
      · simp only [runJobFsGo, hp] at h
        exact Bool.noConfusion h
    | some loc =>
      cases ho : outcome loc with
      | FatalFailure =>
        refine ⟨fun _ => ⟨?_, ?_⟩, fun h => ?_⟩
        · simp [runJobFsGo, hp, ho]
        · simp [runJobFsGo, hp, ho]
        · simp only [runJobFsGo, hp, ho, JobResult.isFailed] at h
          exact Bool.noConfusion h
      | RetryableFailure =>
        have hr := ih (loc :: tried) (attempts + 1)
        refine ⟨fun h => ?_, fun h => ?_⟩
        · simp only [runJobFsGo, hp, ho] at h ⊢
          obtain ⟨h1, h2⟩ := hr.1 h
          refine ⟨h1, ?_⟩
          intro s hs
          rcases List.mem_cons.mp hs with h | h
          · subst h; rfl
          · rcases List.mem_cons.mp h with h | h
            · subst h; rfl
            · exact h2 s h
        · simp only [runJobFsGo, hp, ho] at h ⊢
          obtain ⟨h1, h2⟩ := hr.2 h
          refine ⟨h1, ?_⟩
          intro s hs
          rcases List.mem_cons.mp hs with h | h
          · subst h; intro hfin; exact Bool.noConfusion hfin
          · rcases List.mem_cons.mp h with h | h
            · subst h; intro _; rfl
            · exact h2 s h
      | Success =>
        cases hv : verifyOk loc with
        | true =>
          refine ⟨fun h => ?_, fun h => ⟨?_, ?_⟩⟩
          · simp only [runJobFsGo, hp, ho, hv, if_true,
              JobResult.isFailed] at h
            exact Bool.noConfusion h
          · simp [runJobFsGo, hp, ho, hv]
          · simp only [runJobFsGo, hp, ho, hv, if_true]
            intro s hs
            rcases List.mem_cons.mp hs with h | h
            · subst h; intro hfin; exact Bool.noConfusion hfin
            · rcases List.mem_cons.mp h with h | h
              · subst h; intro _; rfl
              · exact absurd h (List.not_mem_nil s)
        | false =>
          have hr := ih (loc :: tried) (attempts + 1)
          refine ⟨fun h => ?_, fun h => ?_⟩
          · simp only [runJobFsGo, hp, ho, hv, Bool.false_eq_true,
              if_false] at h ⊢
            obtain ⟨h1, h2⟩ := hr.1 h
            refine ⟨h1, ?_⟩
            intro s hs
            rcases List.mem_cons.mp hs with h | h
            · subst h; rfl
            · rcases List.mem_cons.mp h with h | h
              · subst h; rfl
              · exact h2 s h
          · simp only [runJobFsGo, hp, ho, hv, Bool.false_eq_true,
              if_false] at h ⊢
            obtain ⟨h1, h2⟩ := hr.2 h
            refine ⟨h1, ?_⟩
            intro s hs
            rcases List.mem_cons.mp hs with h | h
            · subst h; intro hfin; exact Bool.noConfusion hfin
            · rcases List.mem_cons.mp h with h | h
              · subst h; intro _; rfl
              · exact h2 s h

/-- C7: running a job from a clean filesystem, whenever the job's result is
`Failed` no file exists at the final target path and no staging file
remains (staging is cleaned up on failure), and in every filesystem state
the job ever passes through the final path is empty; when the job succeeds,
the only state in which a file exists at the final path is the committed
one (the verified staged file after its atomic rename, with no staging file
left), so at most one fully-written, verified file ever exists at the final
target path. -/
theorem job_final_path_invariant (pick : List Location → Option Location)
    (outcome : Location → TransferOutcome) (verifyOk : Location → Bool)
    (target : String) (sources : List Location) :
    (∀ reason n,
      (runJobFs pick outcome verifyOk target sources).1
          = JobResult.Failed reason n →
      (runJobFs pick outcome verifyOk target sources).2.1
          = FsState.mk false false ∧
      ∀ s ∈ (runJobFs pick outcome verifyOk target sources).2.2,
        s.finalFile = false) ∧
    (∀ p,
      (runJobFs pick outcome verifyOk target sources).1
          = JobResult.Succeeded p →
      (runJobFs pick outcome verifyOk target sources).2.1
          = FsState.mk false true ∧
      ∀ s ∈ (runJobFs pick outcome verifyOk target sources).2.2,
        s.finalFile = true → s.staging = false) := by
  have h := runJobFsGo_clean pick outcome verifyOk target sources
    sources.length [] 0
  refine ⟨fun reason n hf => h.1 ?_, fun p hs => h.2 ?_⟩
  · rw [runJobFs] at hf
    rw [hf]
    rfl
  · rw [runJobFs] at hs
    rw [hs]
    rfl

/-- C7 witness: a job whose only source deterministically fails
verification ends `Failed` with no file at the final target path, no
staging file left, and no trace state in which the final path holds a
file. -/
theorem job_final_path_invariant_witness :
    (runJobFs (fun l => l.head?) (fun _ => TransferOutcome.Success)
        (fun _ => false) "t" ["m"]).2.1 = FsState.mk false false ∧
    ∀ s ∈ (runJobFs (fun l => l.head?) (fun _ => TransferOutcome.Success)
        (fun _ => false) "t" ["m"]).2.2, s.finalFile = false :=
  (job_final_path_invariant (fun l => l.head?)
      (fun _ => TransferOutcome.Success) (fun _ => false) "t" ["m"]).1
    FailReason.SourcesExhausted 1 (by decide)

end Engine
